import Mathlib

/-!
# Verification of the aethon-arion-pipeline analysis core

Shallow embedding of the two analysis components of the repository:

* `StateSpace` (trajectory analyzer, `state-space.class.ts`): per-run
  temporal statistics over a list of state snapshots;
* `ResultSet` (cross-run aggregator, `result-set.class.ts`): quantized-state
  histogram, Shannon entropy and performance statistics over a batch of
  final-state records.

Modelling conventions:

* JavaScript numbers are embedded as `ℚ` (the analysed code performs only
  field arithmetic and `Math.floor` on them); `Math.log2`/`Math.sqrt` live in
  `ℝ` via `Real.logb`/`Real.sqrt`.
* A JavaScript runtime `TypeError` (e.g. `undefined.forEach`,
  `undefined[i]++`) is modelled by an `Option`-valued method returning
  `none`; `undefined` read out of an array and propagated as a *value*
  (`NaN` after arithmetic) is modelled by `Option` in the payload.
* Batches of uniformly shaped records (the §6 data contract) are the
  modelled domain of the histogram pipeline; the `NaN` arithmetic that ragged
  shapes would produce in JS is outside the embedding.
-/

/-- One trajectory snapshot (`StateSpacePointDTO`).  `agentStates` is kept
optional so that malformed input lacking the field can be represented (the
constructor and the analysis methods treat that case specially); the other
DTO fields (`board`, `plant`, `reporting`, `priorityTensor`, `clockTick`)
are never read by any `StateSpace` method and are omitted. -/
structure StateSpacePoint where
  agentStates : Option (List Int)
deriving DecidableEq

/-- Modelled from the spec: `Utils.tensor` is the shared zero-filled
N-dimensional allocation utility from the external `aethon-arion-core`
package (not under `src/`); `tensor2 d1 d2` is the 2-dimensional case, a
`d1 × d2` matrix of zeros. -/
def tensor2 (d1 d2 : Nat) : List (List ℚ) :=
  List.replicate d1 (List.replicate d2 (0 : ℚ))

/-- The trajectory analyzer: an ordered list of snapshots plus the agent
count fixed at construction. -/
structure StateSpace where
  points : List StateSpacePoint
  agentCount : Nat
deriving DecidableEq

/-- `new StateSpace(stateSpace)`: an absent (`undefined`) or empty input
yields an empty state space; `_agentCount` is read from the first
snapshot's `agentStates` via optional chaining (`this[0]?.agentStates`),
remaining `0` when the field is missing. -/
def StateSpace.create (stateSpace : Option (List StateSpacePoint)) : StateSpace :=
  let pts := stateSpace.getD []
  { points := pts
    agentCount :=
      match pts with
      | [] => 0
      | p :: _ =>
        match p.agentStates with
        | none => 0
        | some l => l.length }

/-- `agentSetStateProbabilities[agentIndex][agentState]++`: in JS an
`agentIndex` beyond the allocated rows makes `undefined[agentState]` throw a
`TypeError`, modelled as `none`; otherwise the cell is incremented. -/
def bumpCell (m : List (List ℚ)) (a s : Nat) : Option (List (List ℚ)) :=
  match m[a]? with
  | none => none
  | some row => some (m.set a (row.set s (row.getD s 0 + 1)))

/-- The inner `forEach` of `agentStateProbabilities` over one snapshot's
`agentStates` list, `i` being the running agent index: a state index outside
`[0, L)` is skipped by the bounds guard, an in-range one bumps cell
`[i][state]`. -/
def bumpStates (L : Nat) : List (List ℚ) → List Int → Nat → Option (List (List ℚ))
  | m, [], _ => some m
  | m, v :: rest, i =>
    if 0 ≤ v ∧ v < (L : Int) then
      match bumpCell m i v.toNat with
      | none => none
      | some m' => bumpStates L m' rest (i + 1)
    else bumpStates L m rest (i + 1)

/-- One iteration of the outer `forEach` of `agentStateProbabilities`: a
snapshot whose `agentStates` field is missing makes `undefined.forEach`
throw (`none`). -/
def countSnapshot (L : Nat) (m : List (List ℚ)) (p : StateSpacePoint) :
    Option (List (List ℚ)) :=
  match p.agentStates with
  | none => none
  | some states => bumpStates L m states 0

/-- `StateSpace.agentStateProbabilities(agentStatesArray)`: when the
state-name list and the trajectory are both non-empty, counts per-agent
state occurrences into a zero tensor and divides every cell by the
trajectory length; otherwise returns the degenerate `[[]]`. -/
def StateSpace.agentStateProbabilities (sp : StateSpace)
    (agentStatesArray : List String) : Option (List (List ℚ)) :=
  if 0 < agentStatesArray.length ∧ 0 < sp.points.length then
    (sp.points.foldlM (countSnapshot agentStatesArray.length)
        (tensor2 sp.agentCount agentStatesArray.length)).map
      (fun m => m.map (fun row => row.map (fun c => c / (sp.points.length : ℚ))))
  else
    some [[]]

/-- `StateSpace.agentStates()`: transposes the data to agent-major time
series.  Reading `this[tau].agentStates[alpha]` throws when the field is
missing on any snapshot (and at least one read happens), modelled as the
outer `none`; an index beyond a present list reads `undefined`, modelled as
an inner `none` entry. -/
def StateSpace.agentStates (sp : StateSpace) : Option (List (List (Option Int))) :=
  if 0 < sp.agentCount ∧ 0 < sp.points.length ∧
      ¬ sp.points.all (fun p => p.agentStates.isSome) then
    none
  else
    some ((List.range sp.agentCount).map (fun alpha =>
      sp.points.map (fun p => (p.agentStates.getD [])[alpha]?)))

/-- `StateSpace.agentStateAverage()`: arithmetic mean of the raw state
indices per agent; an empty trajectory returns the zero vector without
reading any snapshot.  A missing `agentStates` field on a snapshot throws
(outer `none`); a present list shorter than the agent index turns the JS
sum into `NaN`, modelled as an inner `none` entry. -/
def StateSpace.agentStateAverage (sp : StateSpace) : Option (List (Option ℚ)) :=
  if 0 < sp.points.length then
    if 0 < sp.agentCount ∧ ¬ sp.points.all (fun p => p.agentStates.isSome) then
      none
    else
      some ((List.range sp.agentCount).map (fun alpha =>
        (sp.points.mapM (fun p => (p.agentStates.getD [])[alpha]?)).map
          (fun vals => ((vals.map (fun v => (v : ℚ))).sum / (sp.points.length : ℚ)))))
  else
    some (List.replicate sp.agentCount (some (0 : ℚ)))

/-- Inner tick loop of `agentStateCoordinationMatrix` for one agent pair:
counts the ticks where the two agents' entries compare equal under JS
`===` (two out-of-range reads compare equal as `undefined === undefined`,
hence `Option` equality), then divides by the trajectory length.  A snapshot
missing the whole `agentStates` field throws (`none`). -/
def coordCell (points : List StateSpacePoint) (T : Nat) (a b : Nat) : Option ℚ :=
  (points.foldlM (fun (acc : ℚ) (p : StateSpacePoint) =>
      match p.agentStates with
      | none => none
      | some l => some (acc + if l[a]? = l[b]? then 1 else 0)) (0 : ℚ)).map
    (fun c => c / (T : ℚ))

/-- `StateSpace.agentStateCoordinationMatrix()`: the source fills the entry
of each pair `(α, β)` with `α ≤ β` and mirrors it to `(β, α)`; since the
per-pair tick count is symmetric in the pair, the matrix is rendered
cell-wise here.  With `agentCount = 0` no loop body runs and the empty
matrix is returned even on malformed snapshots.  (The division by a zero
trajectory length is unreachable for spaces built by `StateSpace.create`,
where a positive `agentCount` forces a non-empty trajectory.) -/
def StateSpace.agentStateCoordinationMatrix (sp : StateSpace) :
    Option (List (List ℚ)) :=
  (List.range sp.agentCount).mapM (fun a =>
    (List.range sp.agentCount).mapM (fun b =>
      coordCell sp.points sp.points.length a b))

/-- Number of ticks at which agent `a`'s entry was the state index `s`
(closed form of the counting loop of `agentStateProbabilities`). -/
def stateTickCount (points : List StateSpacePoint) (a s : Nat) : Nat :=
  points.countP (fun p => decide ((p.agentStates.getD [])[a]? = some (s : Int)))

/-- Number of ticks at which agents `a` and `b` hold equal entries (closed
form of the counting loop of `agentStateCoordinationMatrix`). -/
def coordTickCount (points : List StateSpacePoint) (a b : Nat) : Nat :=
  points.countP (fun p =>
    decide ((p.agentStates.getD [])[a]? = (p.agentStates.getD [])[b]?))

/-- An `A × L` matrix given by an entry function, the normal form used to
reason about the imperative tensor updates. -/
def mapMatrix (A L : Nat) (g : Nat → Nat → ℚ) : List (List ℚ) :=
  (List.range A).map (fun a => (List.range L).map (fun s => g a s))

/-- Entry `(a, b)` of a matrix rendered as nested lists (`0` out of range). -/
def mentry (M : List (List ℚ)) (a b : Nat) : ℚ :=
  (M.getD a []).getD b 0

/-- Contribution of one snapshot's `agentStates` list, scanned from running
index `i0`, to cell `(a, s)` of the counting tensor: `1` exactly when the
list holds the value `s` at position `a` (reasoning artifact for the
imperative counting loop). -/
def hitQ (states : List Int) (i0 a s : Nat) : ℚ :=
  if i0 ≤ a ∧ states[a - i0]? = some (s : Int) then 1 else 0

/-- One final-state record (`ResultDTO`), restricted to the fields the
aggregator reads.  `performance` is optional as in the source. -/
structure ResultDTO where
  board : List ℚ
  agentStates : List ℚ
  plant : List ℚ
  reporting : List ℚ
  priorityTensor : List (List (List ℚ))
  performance : Option ℚ
deriving DecidableEq

/-- The flat state vector of one record: `board ++ agentStates ++ plant ++
reporting ++ priorityTensor.flat().flat()` (two one-level flattenings take
the 3-level tensor to one level, order preserved). -/
def stateVector (r : ResultDTO) : List ℚ :=
  r.board ++ r.agentStates ++ r.plant ++ r.reporting ++ r.priorityTensor.flatten.flatten

/-- One pass of the min-update loop: for each index `i < v.length`,
`if (v[i] < cur[i]) cur[i] = v[i]` (a comparison against an out-of-range
`undefined` is false, so `cur` is neither extended nor truncated). -/
def updMin (cur v : List ℚ) : List ℚ :=
  (cur.zipWith (fun c x => if x < c then x else c) v) ++ cur.drop v.length

/-- One pass of the max-update loop, symmetric to `updMin`. -/
def updMax (cur v : List ℚ) : List ℚ :=
  (cur.zipWith (fun c x => if x > c then x else c) v) ++ cur.drop v.length

/-- Per-dimension histogram bin sizes:
`(max[i] − min[i]) / binCount` when `binCount > 0`, else `0` (the guard added
in v0.5.1; a non-positive bin count never divides).  In the source the array
is refreshed inside the min/max loop; for uniformly shaped batches its final
content is this function of the final min/max. -/
def binSizesOf (mins maxs : List ℚ) (binCount : Int) : List ℚ :=
  mins.zipWith (fun mn mx =>
    if 0 < binCount then (mx - mn) / (binCount : ℚ) else 0) maxs

/-- `ResultSet._quantiseStateVector`: per dimension,
`binIndex = floor((value − min[i]) / binSize[i])` when `binSize[i] ≠ 0`, else
`binIndex = 0`; the emitted coordinate is `binIndex · binSize[i] + min[i]`,
the left edge of the containing bin. -/
def quantiseStateVector (mins sizes v : List ℚ) : List ℚ :=
  (v.zip (mins.zip sizes)).map (fun p =>
    (if p.2.2 ≠ 0 then ((Int.floor ((p.1 - p.2.1) / p.2.2) : Int) : ℚ) else 0)
      * p.2.2 + p.2.1)

/-- One `Map` update of the frequency-counting loop: if the key is present
its count is incremented, otherwise it is inserted with count 1 (insertion
order preserved, as in a JS `Map`). -/
def bumpKey : List (List ℚ × Nat) → List ℚ → List (List ℚ × Nat)
  | [], k => [(k, 1)]
  | (k', c) :: rest, k =>
    if k' = k then (k', c + 1) :: rest else (k', c) :: bumpKey rest k

/-- The frequency-counting loop over all quantised keys: a `Map` from key to
occurrence count, built by one `bumpKey` per state vector. -/
def keyCounts (keys : List (List ℚ)) : List (List ℚ × Nat) :=
  keys.foldl bumpKey []

/-- The aggregator: the raw batch, the requested bin count and the derived
histogram data computed once at construction.  The histogram is a list of
(key, probability) pairs; the key is the quantised state vector itself
(the source keys its `Map` by `JSON.stringify` of that vector, which is a
stable value-equal encoding). -/
structure ResultSet where
  results : List ResultDTO
  histogramBinCount : Int
  histogram : Option (List (List ℚ × ℚ))
  histogramMin : List ℚ
  histogramMax : List ℚ
  histogramBinSizes : List ℚ

/-- `new ResultSet(results, histogramBinCount)` (the source defaults the bin
count to 100 when the caller omits it; here it is always explicit): an empty
batch marks
the histogram absent and leaves the other derived fields empty.  Otherwise
the state vectors are built, per-dimension min/max and bin sizes computed;
when `max ≠ min` (as serialized vectors) every vector is quantised and
bucket frequencies are collected by key, else (single repeated point) the
whole count is assigned to the one bucket keyed by that shared vector; the
counts are finally normalised by the batch size. -/
def ResultSet.create (results : List ResultDTO) (binCount : Int) : ResultSet :=
  match results with
  | [] =>
    { results := results, histogramBinCount := binCount, histogram := none
      histogramMin := [], histogramMax := [], histogramBinSizes := [] }
  | r0 :: _ =>
    let stateVectors := results.map stateVector
    let mins := stateVectors.foldl updMin (stateVector r0)
    let maxs := stateVectors.foldl updMax (stateVector r0)
    let sizes := binSizesOf mins maxs binCount
    let keys := stateVectors.map (quantiseStateVector mins sizes)
    let counts : List (List ℚ × Nat) :=
      if maxs ≠ mins then
        keyCounts keys
      else
        [(maxs, stateVectors.length)]
    { results := results, histogramBinCount := binCount
      histogram := some (counts.map (fun kc =>
        (kc.1, (kc.2 : ℚ) / (stateVectors.length : ℚ))))
      histogramMin := mins, histogramMax := maxs, histogramBinSizes := sizes }

/-- One summand of the entropy loop: probabilities `p > 0` contribute
`p · log2 p`, the rest contribute nothing (the v0.5.1 positivity guard that
keeps `Math.log2(0) = -∞` out of the sum). -/
noncomputable def entropyTerm (p : ℚ) : ℝ :=
  if 0 < p then (p : ℝ) * Real.logb 2 (p : ℝ) else 0

/-- `ResultSet.getEntropy()`: `null` when the histogram is absent, otherwise
`−Σ p · log2 p` over the stored probabilities, summing only over `p > 0`. -/
noncomputable def ResultSet.getEntropy (rs : ResultSet) : Option ℝ :=
  rs.histogram.map (fun h => -(h.map (fun kv => entropyTerm kv.2)).sum)

/-- `ResultSet.getPerformance()`: builds the performance vector with every
missing `performance` replaced by `0` (the source tests `if
(result?.performance)`, so a present `0` also pushes `0`), then returns the
mean when the batch is non-empty and the sample standard deviation
(denominator `n − 1`) only when `n > 2`. -/
noncomputable def ResultSet.getPerformance (rs : ResultSet) : Option ℚ × Option ℝ :=
  let performanceVector := rs.results.map (fun r => r.performance.getD 0)
  if 0 < performanceVector.length then
    let avgPerformance := performanceVector.sum / (performanceVector.length : ℚ)
    (some avgPerformance,
      if 2 < performanceVector.length then
        some (Real.sqrt
          ((((performanceVector.map (fun v => (v - avgPerformance) ^ 2)).sum
              / ((performanceVector.length : ℚ) - 1) : ℚ) : ℝ)))
      else none)
  else (none, none)

/-- `ResultSet.getSummary()`: the performance pair together with the
entropy. -/
noncomputable def ResultSet.getSummary (rs : ResultSet) :
    Option ℚ × Option ℝ × Option ℝ :=
  (rs.getPerformance.1, rs.getPerformance.2, rs.getEntropy)

/-! ## List and matrix helper lemmas -/

theorem getElem?_map_range {α : Type} {n i : Nat} (f : Nat → α) (h : i < n) :
    ((List.range n).map f)[i]? = some (f i) := by
  simp [List.getElem?_map, List.getElem?_range, h]

theorem map_range_set {α : Type} (n i : Nat) (f : Nat → α) (x : α) :
    ((List.range n).map f).set i x
      = (List.range n).map (fun j => if j = i then x else f j) := by
  apply List.ext_getElem?
  intro j
  rw [List.getElem?_set]
  by_cases hj : j < n
  · by_cases hij : i = j
    · subst hij
      simp [List.getElem?_map, List.getElem?_range, hj, List.length_map,
        List.length_range]
    · have : ¬ j = i := fun h => hij h.symm
      simp [List.getElem?_map, List.getElem?_range, hj, hij, this]
  · have h1 : ((List.range n).map f)[j]? = none := by
      simp [List.getElem?_eq_none_iff, List.length_map, List.length_range, Nat.le_of_not_lt hj]
    have h2 : ((List.range n).map fun j => if j = i then x else f j)[j]? = none := by
      simp [List.getElem?_eq_none_iff, List.length_map, List.length_range, Nat.le_of_not_lt hj]
    by_cases hij : i = j
    · subst hij
      simp [List.length_map, List.length_range, hj, h2]
    · simp [hij, h1, h2]

theorem mapMatrix_congr {A L : Nat} {f g : Nat → Nat → ℚ}
    (h : ∀ a < A, ∀ s < L, f a s = g a s) : mapMatrix A L f = mapMatrix A L g := by
  unfold mapMatrix
  apply List.map_congr_left
  intro a ha
  apply List.map_congr_left
  intro s hs
  exact h a (List.mem_range.mp ha) s (List.mem_range.mp hs)

theorem tensor2_eq_mapMatrix (A L : Nat) :
    tensor2 A L = mapMatrix A L (fun _ _ => 0) := by
  unfold tensor2 mapMatrix
  have h1 : (List.range L).map (fun _ => (0 : ℚ)) = List.replicate L 0 := by
    simp [List.map_const]
  have h2 : (List.range A).map (fun _ => List.replicate L (0 : ℚ))
      = List.replicate A (List.replicate L 0) := by
    simp [List.map_const]
  rw [← h2]
  apply List.map_congr_left
  intro a _
  exact h1.symm

theorem mapMatrix_map (A L : Nat) (g : Nat → Nat → ℚ) (f : ℚ → ℚ) :
    (mapMatrix A L g).map (fun row => row.map f)
      = mapMatrix A L (fun a s => f (g a s)) := by
  unfold mapMatrix
  simp [List.map_map, Function.comp]

/-! ## Characterization of the `agentStateProbabilities` counting loop -/

theorem mapMatrix_getElem? {A : Nat} (L : Nat) (g : Nat → Nat → ℚ) {a : Nat}
    (ha : a < A) :
    (mapMatrix A L g)[a]? = some ((List.range L).map (fun s => g a s)) := by
  unfold mapMatrix
  exact getElem?_map_range _ ha

theorem bumpCell_mapMatrix (A L : Nat) (g : Nat → Nat → ℚ) (a s : Nat)
    (ha : a < A) (hs : s < L) :
    bumpCell (mapMatrix A L g) a s
      = some (mapMatrix A L
          (fun j t => if j = a ∧ t = s then g j t + 1 else g j t)) := by
  have key : bumpCell (mapMatrix A L g) a s
      = some ((mapMatrix A L g).set a
          (((List.range L).map (fun t => g a t)).set s
            (((List.range L).map (fun t => g a t)).getD s 0 + 1))) := by
    unfold bumpCell
    rw [mapMatrix_getElem? L g ha]
  have hrow : ((List.range L).map fun t => g a t).getD s 0 = g a s := by
    rw [List.getD_eq_getElem?_getD, getElem?_map_range (fun t => g a t) hs]
    rfl
  rw [key, hrow]
  unfold mapMatrix
  rw [map_range_set, map_range_set]
  congr 1
  apply List.map_congr_left
  intro j hj
  by_cases hja : j = a
  · subst hja
    simp only [if_pos rfl]
    apply List.map_congr_left
    intro t ht
    by_cases hts : t = s
    · subst hts; simp
    · simp [hts]
  · simp only [if_neg hja]
    apply List.map_congr_left
    intro t ht
    simp [hja]

theorem hitQ_nil (i0 a s : Nat) : hitQ [] i0 a s = 0 := by
  simp [hitQ]

theorem hitQ_cons (v : Int) (rest : List Int) (i0 a s : Nat) :
    hitQ (v :: rest) i0 a s
      = (if a = i0 ∧ v = (s : Int) then 1 else 0) + hitQ rest (i0 + 1) a s := by
  rcases Nat.lt_trichotomy a i0 with hlt | heq | hgt
  · have eL : hitQ (v :: rest) i0 a s = 0 := by
      unfold hitQ
      exact if_neg (fun h => absurd h.1 (by omega))
    have eR2 : hitQ rest (i0 + 1) a s = 0 := by
      unfold hitQ
      exact if_neg (fun h => absurd h.1 (by omega))
    have eR1 : (if a = i0 ∧ v = (s : Int) then (1 : ℚ) else 0) = 0 :=
      if_neg (fun h => absurd h.1 (by omega))
    rw [eL, eR1, eR2]
    norm_num
  · subst heq
    have hget : (v :: rest)[a - a]? = some (s : Int) ↔ v = (s : Int) := by
      rw [Nat.sub_self]
      simp
    have eR2 : hitQ rest (a + 1) a s = 0 := by
      unfold hitQ
      exact if_neg (fun h => absurd h.1 (by omega))
    rw [eR2, add_zero]
    by_cases hv : v = (s : Int)
    · have eL : hitQ (v :: rest) a a s = 1 := by
        unfold hitQ
        exact if_pos ⟨Nat.le_refl a, hget.mpr hv⟩
      rw [eL, if_pos ⟨rfl, hv⟩]
    · have eL : hitQ (v :: rest) a a s = 0 := by
        unfold hitQ
        exact if_neg (fun h => hv (hget.mp h.2))
      rw [eL, if_neg (fun h => hv h.2)]
  · have h3 : ¬ (a = i0) := by omega
    have hget : (v :: rest)[a - i0]? = rest[a - (i0 + 1)]? := by
      have hsub : a - i0 = (a - (i0 + 1)) + 1 := by omega
      rw [hsub]
      simp
    have eR1 : (if a = i0 ∧ v = (s : Int) then (1 : ℚ) else 0) = 0 :=
      if_neg (fun h => h3 h.1)
    rw [eR1, zero_add]
    by_cases hr : rest[a - (i0 + 1)]? = some (s : Int)
    · have eL : hitQ (v :: rest) i0 a s = 1 := by
        unfold hitQ
        rw [hget]
        exact if_pos ⟨by omega, hr⟩
      have eR2 : hitQ rest (i0 + 1) a s = 1 := by
        unfold hitQ
        exact if_pos ⟨by omega, hr⟩
      rw [eL, eR2]
    · have eL : hitQ (v :: rest) i0 a s = 0 := by
        unfold hitQ
        rw [hget]
        exact if_neg (fun h => hr h.2)
      have eR2 : hitQ rest (i0 + 1) a s = 0 := by
        unfold hitQ
        exact if_neg (fun h => hr h.2)
      rw [eL, eR2]

theorem bumpStates_mapMatrix (A L : Nat) (states : List Int) :
    ∀ (g : Nat → Nat → ℚ) (i0 : Nat), i0 + states.length ≤ A →
    bumpStates L (mapMatrix A L g) states i0
      = some (mapMatrix A L (fun a s => g a s + hitQ states i0 a s)) := by
  induction states with
  | nil =>
    intro g i0 _
    unfold bumpStates
    congr 1
    apply mapMatrix_congr
    intro a _ s _
    rw [hitQ_nil, add_zero]
  | cons v rest ih =>
    intro g i0 hle
    unfold bumpStates
    by_cases hv : 0 ≤ v ∧ v < (L : Int)
    · rw [if_pos hv]
      have hi0A : i0 < A := by
        simp only [List.length_cons] at hle
        omega
      have hvL : v.toNat < L := by
        rcases hv with ⟨h0, h1⟩
        omega
      rw [bumpCell_mapMatrix A L g i0 v.toNat hi0A hvL]
      show bumpStates L
          (mapMatrix A L fun j t => if j = i0 ∧ t = v.toNat then g j t + 1 else g j t)
          rest (i0 + 1)
        = some (mapMatrix A L fun a s => g a s + hitQ (v :: rest) i0 a s)
      rw [ih _ (i0 + 1) (by simp only [List.length_cons] at hle; omega)]
      congr 1
      apply mapMatrix_congr
      intro a _ s hs
      rw [hitQ_cons]
      have hiff : (a = i0 ∧ s = v.toNat) ↔ (a = i0 ∧ v = (s : Int)) := by
        constructor
        · intro h
          exact ⟨h.1, by omega⟩
        · intro h
          exact ⟨h.1, by omega⟩
      rw [if_congr hiff rfl rfl]
      by_cases hc : a = i0 ∧ v = (s : Int)
      · rw [if_pos hc, if_pos hc]
        ring
      · rw [if_neg hc, if_neg hc]
        ring
    · rw [if_neg hv]
      rw [ih g (i0 + 1) (by simp only [List.length_cons] at hle; omega)]
      congr 1
      apply mapMatrix_congr
      intro a _ s hs
      rw [hitQ_cons]
      have hc : ¬ (a = i0 ∧ v = (s : Int)) := by
        intro h
        apply hv
        constructor
        · omega
        · omega
      rw [if_neg hc]
      ring

theorem stateTickCount_nil (a s : Nat) : stateTickCount [] a s = 0 := by
  simp [stateTickCount]

theorem stateTickCount_cons (p : StateSpacePoint) (rest : List StateSpacePoint)
    (a s : Nat) :
    (stateTickCount (p :: rest) a s : ℚ)
      = hitQ (p.agentStates.getD []) 0 a s + (stateTickCount rest a s : ℚ) := by
  have e1 : hitQ (p.agentStates.getD []) 0 a s
      = if (p.agentStates.getD [])[a]? = some (s : Int) then 1 else 0 := by
    unfold hitQ
    by_cases hc : (p.agentStates.getD [])[a]? = some (s : Int)
    · rw [if_pos ⟨Nat.zero_le a, by simpa using hc⟩, if_pos hc]
    · rw [if_neg (fun h => hc (by simpa using h.2)), if_neg hc]
  unfold stateTickCount
  rw [List.countP_cons, e1]
  by_cases hc : (p.agentStates.getD [])[a]? = some (s : Int)
  · simp [hc]
    ring
  · simp [hc]

theorem foldlM_countSnapshot (L A : Nat) :
    ∀ (points : List StateSpacePoint) (g : Nat → Nat → ℚ),
    (∀ p ∈ points, p.agentStates.isSome ∧ (p.agentStates.getD []).length ≤ A) →
    points.foldlM (countSnapshot L) (mapMatrix A L g)
      = some (mapMatrix A L (fun a s => g a s + (stateTickCount points a s : ℚ))) := by
  intro points
  induction points with
  | nil =>
    intro g _
    simp only [List.foldlM_nil, pure]
    congr 1
    apply mapMatrix_congr
    intro a _ s _
    rw [stateTickCount_nil]
    norm_num
  | cons p rest ih =>
    intro g hgood
    have hp := hgood p (List.mem_cons_self p rest)
    rcases Option.isSome_iff_exists.mp hp.1 with ⟨l, hl⟩
    have hlen : l.length ≤ A := by
      have := hp.2
      rw [hl] at this
      simpa using this
    rw [List.foldlM_cons]
    have hstep : countSnapshot L (mapMatrix A L g) p
        = some (mapMatrix A L (fun a s => g a s + hitQ l 0 a s)) := by
      unfold countSnapshot
      rw [hl]
      exact bumpStates_mapMatrix A L l g 0 (by omega)
    rw [hstep]
    show rest.foldlM (countSnapshot L)
        (mapMatrix A L fun a s => g a s + hitQ l 0 a s)
      = some (mapMatrix A L fun a s => g a s + (stateTickCount (p :: rest) a s : ℚ))
    rw [ih _ (fun q hq => hgood q (List.mem_cons_of_mem p hq))]
    congr 1
    apply mapMatrix_congr
    intro a _ s _
    rw [stateTickCount_cons]
    have : p.agentStates.getD [] = l := by rw [hl]; rfl
    rw [this]
    ring

theorem agentStateProbabilities_eq (sp : StateSpace) (names : List String)
    (hL : 0 < names.length) (hT : 0 < sp.points.length)
    (hpts : ∀ p ∈ sp.points,
      p.agentStates.isSome ∧ (p.agentStates.getD []).length ≤ sp.agentCount) :
    sp.agentStateProbabilities names
      = some (mapMatrix sp.agentCount names.length
          (fun a s => (stateTickCount sp.points a s : ℚ) / (sp.points.length : ℚ))) := by
  unfold StateSpace.agentStateProbabilities
  rw [if_pos ⟨hL, hT⟩, tensor2_eq_mapMatrix,
    foldlM_countSnapshot names.length sp.agentCount sp.points _ hpts]
  rw [Option.map_some']
  rw [mapMatrix_map]
  congr 1
  apply mapMatrix_congr
  intro a _ s _
  rw [zero_add]

theorem list_sum_map_div {α : Type} (l : List α) (f : α → ℚ) (d : ℚ) :
    (l.map (fun x => f x / d)).sum = (l.map f).sum / d := by
  simp only [div_eq_mul_inv]
  exact List.sum_map_mul_right l f d⁻¹

theorem sum_range_eq_list_sum (n : Nat) (f : Nat → ℚ) :
    ∑ i ∈ Finset.range n, f i = ((List.range n).map f).sum := rfl

theorem sum_stateTickCount (L a : Nat) :
    ∀ points : List StateSpacePoint,
    (∀ p ∈ points, ∃ v : Int,
      (p.agentStates.getD [])[a]? = some v ∧ 0 ≤ v ∧ v < (L : Int)) →
    ∑ s ∈ Finset.range L, (stateTickCount points a s : ℚ) = points.length := by
  intro points
  induction points with
  | nil =>
    intro _
    simp [stateTickCount_nil]
  | cons p rest ih =>
    intro h
    rcases h p (List.mem_cons_self p rest) with ⟨v, hv, hv0, hvL⟩
    have hsum : ∀ s ∈ Finset.range L, (stateTickCount (p :: rest) a s : ℚ)
        = (if s = v.toNat then 1 else 0) + (stateTickCount rest a s : ℚ) := by
      intro s _
      rw [stateTickCount_cons]
      congr 1
      unfold hitQ
      by_cases hs : s = v.toNat
      · subst hs
        have hval : (p.agentStates.getD [])[a - 0]? = some ((v.toNat : Nat) : Int) := by
          rw [Nat.sub_zero, hv]
          congr 1
          omega
        rw [if_pos ⟨Nat.zero_le a, hval⟩, if_pos rfl]
      · have hne : ¬ (0 ≤ a ∧ (p.agentStates.getD [])[a - 0]? = some ((s : Nat) : Int)) := by
          intro hcon
          apply hs
          have h2 := hcon.2
          rw [Nat.sub_zero, hv] at h2
          have hvs : v = (s : Int) := by
            injection h2
          omega
        rw [if_neg hne, if_neg hs]
    rw [Finset.sum_congr rfl hsum, Finset.sum_add_distrib,
      Finset.sum_ite_eq' (Finset.range L) v.toNat (fun _ => (1 : ℚ)),
      if_pos (Finset.mem_range.mpr (by omega)),
      ih (fun q hq => h q (List.mem_cons_of_mem p hq))]
    simp only [List.length_cons]
    push_cast
    ring

/-! ## Claims C1 and C2: agentStateProbabilities -/

/-- C1 (amended): for a non-empty trajectory whose snapshots all carry an
`agentStates` list of the analyzer's agent count, and whose observed state
indices all lie in `[0, len(stateNames))`, every row of the matrix returned
by `agentStateProbabilities` sums to 1; without the validity hypothesis a
row can sum to less than 1 because out-of-range indices are dropped (see the
counterexample).  For an empty trajectory the returned structure `[[]]`
holds no nonzero entry. -/
theorem agentStateProbabilities_rows_sum_to_one (sp : StateSpace)
    (names : List String) :
    (sp.points ≠ [] → names ≠ [] →
      (∀ p ∈ sp.points, p.agentStates.isSome
        ∧ (p.agentStates.getD []).length = sp.agentCount
        ∧ ∀ v ∈ p.agentStates.getD [], 0 ≤ v ∧ v < (names.length : Int)) →
      ∃ M, sp.agentStateProbabilities names = some M
        ∧ M.length = sp.agentCount ∧ ∀ row ∈ M, row.sum = 1)
    ∧ (sp.points = [] →
      ∃ M, sp.agentStateProbabilities names = some M
        ∧ ∀ row ∈ M, ∀ x ∈ row, x = 0) := by
  constructor
  · intro hT hL hpts
    have hL' : 0 < names.length := List.length_pos.mpr hL
    have hT' : 0 < sp.points.length := List.length_pos.mpr hT
    have heq := agentStateProbabilities_eq sp names hL' hT'
      (fun p hp => ⟨(hpts p hp).1, le_of_eq (hpts p hp).2.1⟩)
    refine ⟨_, heq, ?_, ?_⟩
    · simp [mapMatrix]
    · intro row hrow
      unfold mapMatrix at hrow
      rcases List.mem_map.mp hrow with ⟨a, ha, hrw⟩
      have haA : a < sp.agentCount := List.mem_range.mp ha
      rw [← hrw, ← sum_range_eq_list_sum, ← Finset.sum_div,
        sum_stateTickCount names.length a sp.points ?hvalid]
      case hvalid =>
        intro p hp
        obtain ⟨hsome, hlen, hvals⟩ := hpts p hp
        have haLt : a < (p.agentStates.getD []).length := by
          rw [hlen]
          exact haA
        refine ⟨(p.agentStates.getD []).get ⟨a, haLt⟩, ?_, ?_⟩
        · exact List.getElem?_eq_getElem haLt
        · exact hvals _ (List.getElem_mem haLt)
      exact div_self (Nat.cast_ne_zero.mpr (by omega))
  · intro h
    unfold StateSpace.agentStateProbabilities
    rw [if_neg (by simp [h])]
    exact ⟨[[]], rfl, by simp⟩

/-- C1 witness: a one-snapshot trajectory with three agents in valid states
`0, 1, 2` over three state names satisfies the hypotheses, and an empty
trajectory exercises the degenerate branch. -/
theorem agentStateProbabilities_rows_sum_to_one_witness :
    ((StateSpace.create (some [⟨some [0, 1, 2]⟩])).points ≠ []
      ∧ (["x", "y", "z"] : List String) ≠ []
      ∧ (∀ p ∈ (StateSpace.create (some [⟨some [0, 1, 2]⟩])).points,
          p.agentStates.isSome
          ∧ (p.agentStates.getD []).length
              = (StateSpace.create (some [⟨some [0, 1, 2]⟩])).agentCount
          ∧ ∀ v ∈ p.agentStates.getD [],
              0 ≤ v ∧ v < ((["x", "y", "z"] : List String).length : Int))
      ∧ ∃ M, (StateSpace.create (some [⟨some [0, 1, 2]⟩])).agentStateProbabilities
            ["x", "y", "z"] = some M
          ∧ M.length = (StateSpace.create (some [⟨some [0, 1, 2]⟩])).agentCount
          ∧ ∀ row ∈ M, row.sum = 1)
    ∧ ((StateSpace.create (some [])).points = []
      ∧ ∃ M, (StateSpace.create (some [])).agentStateProbabilities ["x"] = some M
          ∧ ∀ row ∈ M, ∀ x ∈ row, x = 0) := by
  constructor
  · refine ⟨by decide, by decide, by decide, ?_⟩
    exact (agentStateProbabilities_rows_sum_to_one
      (StateSpace.create (some [⟨some [0, 1, 2]⟩])) ["x", "y", "z"]).1
      (by decide) (by decide) (by decide)
  · refine ⟨by decide, ?_⟩
    exact (agentStateProbabilities_rows_sum_to_one
      (StateSpace.create (some [])) ["x"]).2 (by decide)

/-- C1 counterexample: one snapshot whose single agent is in state `10`
with only two state names: the returned row is `[0, 0]`, which sums to `0`,
not `1`, refuting the claim that every row sums to 1 for every non-empty
trajectory and non-empty state-name list. -/
theorem agentStateProbabilities_invalid_index_counterexample :
    StateSpace.agentStateProbabilities
        (StateSpace.create (some [⟨some [10]⟩])) ["a", "b"]
      = some [[0, 0]]
    ∧ ([(0 : ℚ), 0]).sum ≠ 1 := by
  constructor
  · norm_num [StateSpace.agentStateProbabilities, StateSpace.create, countSnapshot,
      bumpStates, bumpCell, tensor2, List.foldlM_cons, List.foldlM_nil, List.replicate]
  · norm_num

/-- C2: for a non-empty trajectory (whose snapshots all carry `agentStates`
of length at most the agent count, so that the JS increment never dereferences
a missing row) and a non-empty state-name list of length `L`, the call
succeeds (no error even when observed indices fall outside `[0, L)`) and
every cell `[a][s]` of the returned matrix equals `stateTickCount`, the
number of ticks agent `a` was observed in state `s` (out-of-range indices
match no cell, i.e. are dropped into no bucket), divided by the trajectory
length. -/
theorem agentStateProbabilities_cell_values (sp : StateSpace)
    (names : List String) (hL : names ≠ []) (hT : sp.points ≠ [])
    (hpts : ∀ p ∈ sp.points,
      p.agentStates.isSome ∧ (p.agentStates.getD []).length ≤ sp.agentCount) :
    sp.agentStateProbabilities names
      = some (mapMatrix sp.agentCount names.length
          (fun a s => (stateTickCount sp.points a s : ℚ) / (sp.points.length : ℚ))) :=
  agentStateProbabilities_eq sp names (List.length_pos.mpr hL)
    (List.length_pos.mpr hT) hpts

/-- C2 witness: the spec's example, two snapshots `[0,0,0]` and `[1,1,10]`
over two state names: the hypotheses hold, and the returned matrix is
`[[1/2, 1/2], [1/2, 1/2], [1/2, 0]]` — the out-of-range index `10` was
dropped and every cell was divided by the trajectory length `2`. -/
theorem agentStateProbabilities_cell_values_witness :
    ((["A", "B"] : List String) ≠ []
      ∧ (StateSpace.create (some [⟨some [0, 0, 0]⟩, ⟨some [1, 1, 10]⟩])).points ≠ []
      ∧ (∀ p ∈ (StateSpace.create
            (some [⟨some [0, 0, 0]⟩, ⟨some [1, 1, 10]⟩])).points,
          p.agentStates.isSome ∧ (p.agentStates.getD []).length
            ≤ (StateSpace.create
                (some [⟨some [0, 0, 0]⟩, ⟨some [1, 1, 10]⟩])).agentCount))
    ∧ (StateSpace.create
          (some [⟨some [0, 0, 0]⟩, ⟨some [1, 1, 10]⟩])).agentStateProbabilities
        ["A", "B"]
      = some [[1/2, 1/2], [1/2, 1/2], [1/2, 0]] := by
  refine ⟨⟨by decide, by decide, by decide⟩, ?_⟩
  have h := agentStateProbabilities_cell_values
    (StateSpace.create (some [⟨some [0, 0, 0]⟩, ⟨some [1, 1, 10]⟩]))
    ["A", "B"] (by decide) (by decide) (by decide)
  rw [h]
  norm_num [mapMatrix, stateTickCount, StateSpace.create, List.range_succ,
    List.countP_cons, List.countP_nil]

/-! ## Claim C5: agentStateCoordinationMatrix -/

theorem list_mapM_eq_map {α β : Type} (l : List α) (f : α → Option β) (g : α → β)
    (h : ∀ x ∈ l, f x = some (g x)) : l.mapM f = some (l.map g) := by
  induction l with
  | nil => rfl
  | cons x rest ih =>
    rw [List.mapM_cons, h x (List.mem_cons_self x rest),
      ih (fun y hy => h y (List.mem_cons_of_mem x hy))]
    rfl

theorem getD_map_range {α : Type} {n : Nat} {i : Nat} (f : Nat → α)
    (h : i < n) {d : α} : ((List.range n).map f).getD i d = f i := by
  rw [List.getD_eq_getElem?_getD, getElem?_map_range f h, Option.getD_some]

theorem coordCell_eq (a b : Nat) :
    ∀ (points : List StateSpacePoint), (∀ p ∈ points, p.agentStates.isSome) →
    ∀ (T : Nat), coordCell points T a b
      = some ((coordTickCount points a b : ℚ) / (T : ℚ)) := by
  have key : ∀ (points : List StateSpacePoint),
      (∀ p ∈ points, p.agentStates.isSome) → ∀ (acc : ℚ),
      points.foldlM (fun (acc : ℚ) (p : StateSpacePoint) =>
          match p.agentStates with
          | none => none
          | some l => some (acc + if l[a]? = l[b]? then 1 else 0)) acc
        = some (acc + (coordTickCount points a b : ℚ)) := by
    intro points
    induction points with
    | nil =>
      intro _ acc
      simp [coordTickCount]
    | cons p rest ih =>
      intro h acc
      rcases Option.isSome_iff_exists.mp (h p (List.mem_cons_self p rest)) with ⟨l, hl⟩
      rw [List.foldlM_cons]
      have hstep : (match p.agentStates with
          | none => none
          | some l => some (acc + if l[a]? = l[b]? then 1 else 0))
          = some (acc + if l[a]? = l[b]? then (1 : ℚ) else 0) := by
        rw [hl]
      rw [hstep]
      show rest.foldlM _ (acc + if l[a]? = l[b]? then (1 : ℚ) else 0) = _
      rw [ih (fun q hq => h q (List.mem_cons_of_mem p hq))]
      congr 1
      have hgetD : p.agentStates.getD [] = l := by rw [hl]; rfl
      unfold coordTickCount
      rw [List.countP_cons, hgetD]
      by_cases hc : l[a]? = l[b]?
      · simp [hc]
        ring
      · simp [hc]
  intro points h T
  unfold coordCell
  rw [key points h 0]
  rw [Option.map_some']
  rw [zero_add]

/-- C5: for a non-empty trajectory with at least one agent, all of whose
snapshots carry an `agentStates` field, `agentStateCoordinationMatrix`
returns a matrix of side `agentCount` in which every entry `(a, b)` is the
number of ticks at which agents `a` and `b` hold equal state entries divided
by the trajectory length; the matrix is symmetric and its diagonal entries
are exactly 1. -/
theorem agentStateCoordinationMatrix_props (sp : StateSpace)
    (hT : sp.points ≠ []) (hA : 0 < sp.agentCount)
    (hpts : ∀ p ∈ sp.points, p.agentStates.isSome) :
    ∃ M, sp.agentStateCoordinationMatrix = some M
      ∧ M.length = sp.agentCount
      ∧ (∀ a < sp.agentCount, ∀ b < sp.agentCount,
          mentry M a b = (coordTickCount sp.points a b : ℚ) / (sp.points.length : ℚ))
      ∧ (∀ a < sp.agentCount, ∀ b < sp.agentCount, mentry M a b = mentry M b a)
      ∧ (∀ a < sp.agentCount, mentry M a a = 1) := by
  set n := sp.agentCount with hn
  set T := sp.points.length with hTdef
  have hMdef : sp.agentStateCoordinationMatrix
      = some ((List.range n).map (fun a => (List.range n).map
          (fun b => (coordTickCount sp.points a b : ℚ) / (T : ℚ)))) := by
    unfold StateSpace.agentStateCoordinationMatrix
    apply list_mapM_eq_map
    intro a _
    apply list_mapM_eq_map
    intro b _
    exact coordCell_eq a b sp.points hpts T
  have hcell : ∀ a < n, ∀ b < n,
      mentry ((List.range n).map (fun a => (List.range n).map
          (fun b => (coordTickCount sp.points a b : ℚ) / (T : ℚ)))) a b
        = (coordTickCount sp.points a b : ℚ) / (T : ℚ) := by
    intro a ha b hb
    unfold mentry
    rw [getD_map_range _ ha, getD_map_range _ hb]
  refine ⟨_, hMdef, by simp, hcell, ?_, ?_⟩
  · intro a ha b hb
    rw [hcell a ha b hb, hcell b hb a ha]
    have hsym : coordTickCount sp.points a b = coordTickCount sp.points b a := by
      unfold coordTickCount
      apply List.countP_congr
      intro p _
      simp [eq_comm]
    rw [hsym]
  · intro a ha
    rw [hcell a ha a ha]
    have hdiag : coordTickCount sp.points a a = sp.points.length := by
      unfold coordTickCount
      simp
    rw [hdiag]
    exact div_self (Nat.cast_ne_zero.mpr (by
      intro h0
      exact hT (List.length_eq_zero.mp h0)))

/-- C5 witness: the spec's example trajectory `[0,0]`, `[0,1]` satisfies the
hypotheses, so the coordination matrix exists, is symmetric, has unit
diagonal and tick-fraction entries. -/
theorem agentStateCoordinationMatrix_props_witness :
    ((StateSpace.create (some [⟨some [0, 0]⟩, ⟨some [0, 1]⟩])).points ≠ []
      ∧ 0 < (StateSpace.create (some [⟨some [0, 0]⟩, ⟨some [0, 1]⟩])).agentCount
      ∧ (∀ p ∈ (StateSpace.create (some [⟨some [0, 0]⟩, ⟨some [0, 1]⟩])).points,
          p.agentStates.isSome))
    ∧ ∃ M, (StateSpace.create
          (some [⟨some [0, 0]⟩, ⟨some [0, 1]⟩])).agentStateCoordinationMatrix
        = some M
      ∧ M.length = (StateSpace.create (some [⟨some [0, 0]⟩, ⟨some [0, 1]⟩])).agentCount
      ∧ (∀ a < (StateSpace.create (some [⟨some [0, 0]⟩, ⟨some [0, 1]⟩])).agentCount,
          ∀ b < (StateSpace.create (some [⟨some [0, 0]⟩, ⟨some [0, 1]⟩])).agentCount,
          mentry M a b
            = (coordTickCount (StateSpace.create
                (some [⟨some [0, 0]⟩, ⟨some [0, 1]⟩])).points a b : ℚ)
              / ((StateSpace.create
                  (some [⟨some [0, 0]⟩, ⟨some [0, 1]⟩])).points.length : ℚ))
      ∧ (∀ a < (StateSpace.create (some [⟨some [0, 0]⟩, ⟨some [0, 1]⟩])).agentCount,
          ∀ b < (StateSpace.create (some [⟨some [0, 0]⟩, ⟨some [0, 1]⟩])).agentCount,
          mentry M a b = mentry M b a)
      ∧ (∀ a < (StateSpace.create (some [⟨some [0, 0]⟩, ⟨some [0, 1]⟩])).agentCount,
          mentry M a a = 1) := by
  refine ⟨⟨by decide, by decide, by decide⟩, ?_⟩
  exact agentStateCoordinationMatrix_props
    (StateSpace.create (some [⟨some [0, 0]⟩, ⟨some [0, 1]⟩]))
    (by decide) (by decide) (by decide)

/-! ## Claim C6: construction and method totality -/

/-- C6 (amended): construction never raises — an absent sequence, an empty
sequence, or a first snapshot lacking `agentStates` yields `agentCount = 0`
— and every analyzer method completes (returns `some`, the model of
not throwing) provided every snapshot carries an `agentStates` field of
length at most `agentCount`.  Without that proviso a method can throw: a
later snapshot missing `agentStates` makes `undefined.forEach` /
`undefined[alpha]` raise a `TypeError` in the source (see the
counterexample), so the spec's unconditional "no method ever raises" does
not hold. -/
theorem stateSpace_total (sp : StateSpace) (names : List String) :
    (StateSpace.create none).agentCount = 0
    ∧ (StateSpace.create (some [])).agentCount = 0
    ∧ (∀ (p : StateSpacePoint) (rest : List StateSpacePoint),
        p.agentStates = none → (StateSpace.create (some (p :: rest))).agentCount = 0)
    ∧ ((∀ p ∈ sp.points, p.agentStates.isSome
          ∧ (p.agentStates.getD []).length ≤ sp.agentCount) →
        (sp.agentStateProbabilities names).isSome
        ∧ sp.agentStates.isSome
        ∧ sp.agentStateAverage.isSome
        ∧ sp.agentStateCoordinationMatrix.isSome) := by
  refine ⟨rfl, rfl, ?_, ?_⟩
  · intro p rest hp
    simp [StateSpace.create, hp]
  · intro hgood
    have hall : sp.points.all (fun p => p.agentStates.isSome) = true :=
      List.all_eq_true.mpr (fun p hp => (hgood p hp).1)
    refine ⟨?_, ?_, ?_, ?_⟩
    · by_cases hcond : 0 < names.length ∧ 0 < sp.points.length
      · rw [agentStateProbabilities_eq sp names hcond.1 hcond.2 hgood]
        rfl
      · unfold StateSpace.agentStateProbabilities
        rw [if_neg hcond]
        rfl
    · unfold StateSpace.agentStates
      rw [if_neg (fun hc => hc.2.2 hall)]
      rfl
    · unfold StateSpace.agentStateAverage
      by_cases hT : 0 < sp.points.length
      · rw [if_pos hT, if_neg (fun hc => hc.2 hall)]
        rfl
      · rw [if_neg hT]
        rfl
    · unfold StateSpace.agentStateCoordinationMatrix
      rw [list_mapM_eq_map _ _
        (fun a => (List.range sp.agentCount).map
          (fun b => (coordTickCount sp.points a b : ℚ) / (sp.points.length : ℚ)))
        (fun a _ => list_mapM_eq_map _ _ _
          (fun b _ => coordCell_eq a b sp.points
            (fun p hp => (hgood p hp).1) sp.points.length))]
      rfl

/-- C6 witness: the degenerate constructions at concrete inputs, and a
well-formed two-snapshot trajectory on which all four methods return a
value. -/
theorem stateSpace_total_witness :
    ((⟨none⟩ : StateSpacePoint).agentStates = none
      ∧ (StateSpace.create (some [(⟨none⟩ : StateSpacePoint), ⟨some [3]⟩])).agentCount = 0)
    ∧ ((∀ p ∈ (StateSpace.create (some [⟨some [0, 1]⟩, ⟨some [1, 1]⟩])).points,
          p.agentStates.isSome ∧ (p.agentStates.getD []).length
            ≤ (StateSpace.create (some [⟨some [0, 1]⟩, ⟨some [1, 1]⟩])).agentCount)
      ∧ ((StateSpace.create (some [⟨some [0, 1]⟩, ⟨some [1, 1]⟩])).agentStateProbabilities
            ["u"]).isSome
      ∧ (StateSpace.create (some [⟨some [0, 1]⟩, ⟨some [1, 1]⟩])).agentStates.isSome
      ∧ (StateSpace.create (some [⟨some [0, 1]⟩, ⟨some [1, 1]⟩])).agentStateAverage.isSome
      ∧ (StateSpace.create
          (some [⟨some [0, 1]⟩, ⟨some [1, 1]⟩])).agentStateCoordinationMatrix.isSome) := by
  constructor
  · exact ⟨rfl, (stateSpace_total (StateSpace.create none) []).2.2.1
      ⟨none⟩ [⟨some [3]⟩] rfl⟩
  · exact ⟨by decide, (stateSpace_total
      (StateSpace.create (some [⟨some [0, 1]⟩, ⟨some [1, 1]⟩])) ["u"]).2.2.2
      (by decide)⟩

/-- C6 counterexample: on a trajectory whose second snapshot lacks the
`agentStates` field, `agentStateAverage` and `agentStateCoordinationMatrix`
hit `undefined[alpha]` / `undefined.forEach` in the source and throw,
modelled here as returning `none` — refuting the claim that every method
call on any analyzer completes rather than raising. -/
theorem stateSpace_method_raises_counterexample :
    StateSpace.agentStateAverage
        (StateSpace.create (some [⟨some [0]⟩, ⟨none⟩])) = none
    ∧ StateSpace.agentStateCoordinationMatrix
        (StateSpace.create (some [⟨some [0]⟩, ⟨none⟩])) = none := by
  constructor
  · rfl
  · rfl

/-! ## Histogram structure of ResultSet.create -/

theorem resultSet_create_results (results : List ResultDTO) (bin : Int) :
    (ResultSet.create results bin).results = results := by
  cases results with
  | nil => rfl
  | cons r0 rest => rfl

theorem resultSet_create_histogramBinCount (results : List ResultDTO) (bin : Int) :
    (ResultSet.create results bin).histogramBinCount = bin := by
  cases results with
  | nil => rfl
  | cons r0 rest => rfl

theorem sum_snd_bumpKey (k : List ℚ) :
    ∀ h : List (List ℚ × Nat),
    ((bumpKey h k).map Prod.snd).sum = (h.map Prod.snd).sum + 1 := by
  intro h
  induction h with
  | nil => simp [bumpKey]
  | cons kc rest ih =>
    rcases kc with ⟨k', c⟩
    unfold bumpKey
    by_cases hk : k' = k
    · rw [if_pos hk]
      simp
      ring
    · rw [if_neg hk]
      simp only [List.map_cons, List.sum_cons, ih]
      ring

theorem mem_bumpKey_ge_one (k : List ℚ) :
    ∀ h : List (List ℚ × Nat), (∀ kc ∈ h, 1 ≤ kc.2) →
    ∀ kc ∈ bumpKey h k, 1 ≤ kc.2 := by
  intro h
  induction h with
  | nil =>
    intro _ kc hkc
    rcases List.mem_singleton.mp hkc with rfl
    exact Nat.le_refl 1
  | cons kc0 rest ih =>
    rcases kc0 with ⟨k', c⟩
    intro hall kc hkc
    unfold bumpKey at hkc
    by_cases hk : k' = k
    · rw [if_pos hk] at hkc
      rcases List.mem_cons.mp hkc with rfl | hmem
      · exact Nat.le_add_left 1 c
      · exact hall kc (List.mem_cons_of_mem _ hmem)
    · rw [if_neg hk] at hkc
      rcases List.mem_cons.mp hkc with rfl | hmem
      · exact hall (k', c) (List.mem_cons_self _ _)
      · exact ih (fun q hq => hall q (List.mem_cons_of_mem _ hq)) kc hmem

theorem keyCounts_sum_and_pos (keys : List (List ℚ)) :
    ((keyCounts keys).map Prod.snd).sum = keys.length
    ∧ ∀ kc ∈ keyCounts keys, 1 ≤ kc.2 := by
  have main : ∀ (ks : List (List ℚ)) (acc : List (List ℚ × Nat)),
      ((ks.foldl bumpKey acc).map Prod.snd).sum = (acc.map Prod.snd).sum + ks.length
      ∧ ((∀ kc ∈ acc, 1 ≤ kc.2) → ∀ kc ∈ ks.foldl bumpKey acc, 1 ≤ kc.2) := by
    intro ks
    induction ks with
    | nil =>
      intro acc
      exact ⟨by simp, fun h => h⟩
    | cons k rest ih =>
      intro acc
      constructor
      · rw [List.foldl_cons, (ih (bumpKey acc k)).1, sum_snd_bumpKey k acc]
        simp
        ring
      · intro hacc
        rw [List.foldl_cons]
        exact (ih (bumpKey acc k)).2 (mem_bumpKey_ge_one k acc hacc)
  have h := main keys []
  unfold keyCounts
  refine ⟨?_, (main keys []).2 (by intro kc hkc; cases hkc)⟩
  rw [(main keys []).1]
  simp

theorem histogram_structure (r0 : ResultDTO) (rest : List ResultDTO) (bin : Int) :
    ∃ counts : List (List ℚ × Nat),
      (ResultSet.create (r0 :: rest) bin).histogram
        = some (counts.map (fun kc =>
            (kc.1, (kc.2 : ℚ) / (((r0 :: rest) : List ResultDTO).length : ℚ))))
      ∧ (counts.map Prod.snd).sum = ((r0 :: rest) : List ResultDTO).length
      ∧ ∀ kc ∈ counts, 1 ≤ kc.2 := by
  have hlen : (((r0 :: rest)).map stateVector).length = (r0 :: rest).length :=
    List.length_map _ _
  have hcreate : (ResultSet.create (r0 :: rest) bin).histogram
      = some ((if ((r0 :: rest).map stateVector).foldl updMax (stateVector r0)
              ≠ ((r0 :: rest).map stateVector).foldl updMin (stateVector r0) then
            keyCounts (((r0 :: rest).map stateVector).map (quantiseStateVector
                (((r0 :: rest).map stateVector).foldl updMin (stateVector r0))
                (binSizesOf
                  (((r0 :: rest).map stateVector).foldl updMin (stateVector r0))
                  (((r0 :: rest).map stateVector).foldl updMax (stateVector r0))
                  bin)))
          else
            [(((r0 :: rest).map stateVector).foldl updMax (stateVector r0),
              ((r0 :: rest).map stateVector).length)]).map
          (fun kc => (kc.1, (kc.2 : ℚ) / ((((r0 :: rest).map stateVector).length : Nat) : ℚ)))) :=
    rfl
  rw [hcreate, hlen]
  by_cases hne : ((r0 :: rest).map stateVector).foldl updMax (stateVector r0)
      ≠ ((r0 :: rest).map stateVector).foldl updMin (stateVector r0)
  · rw [if_pos hne]
    set keys := ((r0 :: rest).map stateVector).map (quantiseStateVector
      (((r0 :: rest).map stateVector).foldl updMin (stateVector r0))
      (binSizesOf
        (((r0 :: rest).map stateVector).foldl updMin (stateVector r0))
        (((r0 :: rest).map stateVector).foldl updMax (stateVector r0))
        bin)) with hkeys
    refine ⟨keyCounts keys, rfl, ?_, (keyCounts_sum_and_pos keys).2⟩
    rw [(keyCounts_sum_and_pos keys).1, hkeys, List.length_map, List.length_map]
  · rw [if_neg hne]
    refine ⟨[(((r0 :: rest).map stateVector).foldl updMax (stateVector r0),
      ((r0 :: rest).map stateVector).length)], by rw [hlen], ?_, ?_⟩
    · simp
    · intro kc hkc
      rcases List.mem_singleton.mp hkc with rfl
      simp

theorem histogram_values (results : List ResultDTO) (bin : Int)
    (h : results ≠ []) :
    ∃ hl : List (List ℚ × ℚ),
      (ResultSet.create results bin).histogram = some hl
      ∧ (hl.map Prod.snd).sum = 1
      ∧ ∀ kv ∈ hl, ∃ c : Nat, 1 ≤ c ∧ c ≤ results.length
          ∧ kv.2 = (c : ℚ) / (results.length : ℚ) := by
  match results with
  | [] => exact absurd rfl h
  | r0 :: rest =>
    rcases histogram_structure r0 rest bin with ⟨counts, hhist, hsum, hpos⟩
    refine ⟨_, hhist, ?_, ?_⟩
    · rw [List.map_map]
      have hcomp : (Prod.snd ∘ fun (kc : List ℚ × Nat) =>
            (kc.1, (kc.2 : ℚ) / (((r0 :: rest) : List ResultDTO).length : ℚ)))
          = fun (kc : List ℚ × Nat) =>
            (kc.2 : ℚ) / (((r0 :: rest) : List ResultDTO).length : ℚ) := rfl
      rw [hcomp]
      have hdiv := list_sum_map_div counts
        (fun (kc : List ℚ × Nat) => ((kc.2 : Nat) : ℚ))
        (((r0 :: rest) : List ResultDTO).length : ℚ)
      rw [hdiv]
      have hcast : ∀ cs : List (List ℚ × Nat),
          (cs.map (fun (kc : List ℚ × Nat) => ((kc.2 : Nat) : ℚ))).sum
            = (((cs.map Prod.snd).sum : Nat) : ℚ) := by
        intro cs
        induction cs with
        | nil => simp
        | cons kc0 cs' ih => simp [ih]
      rw [hcast counts, hsum]
      exact div_self (Nat.cast_ne_zero.mpr (by simp))
    · intro kv hkv
      rcases List.mem_map.mp hkv with ⟨kc, hkc, rfl⟩
      refine ⟨kc.2, hpos kc hkc, ?_, rfl⟩
      have hnonneg : ∀ x ∈ counts.map Prod.snd, 0 ≤ x := fun x _ => Nat.zero_le x
      have hmem : kc.2 ∈ counts.map Prod.snd := List.mem_map_of_mem Prod.snd hkc
      have := List.single_le_sum hnonneg kc.2 hmem
      rw [hsum] at this
      exact this

/-! ## Claims C4 and C9: histogram normalization and absence -/

/-- C4: for every non-empty batch (through either the generic quantization
branch or the single-point fast path) the histogram is present, its stored
values sum to exactly 1, and each value is a bucket count divided by the
batch size. -/
theorem histogram_probabilities_sum_to_one (results : List ResultDTO)
    (bin : Int) (h : results ≠ []) :
    ∃ hl : List (List ℚ × ℚ),
      (ResultSet.create results bin).histogram = some hl
      ∧ (hl.map Prod.snd).sum = 1
      ∧ ∀ kv ∈ hl, ∃ c : Nat, 1 ≤ c
          ∧ kv.2 = (c : ℚ) / (results.length : ℚ) := by
  rcases histogram_values results bin h with ⟨hl, hhist, hsum, hval⟩
  exact ⟨hl, hhist, hsum, fun kv hkv =>
    (hval kv hkv).elim (fun c hc => ⟨c, hc.1, hc.2.2⟩)⟩

/-- C4 witness: a three-record batch with distinct boards has a histogram
whose probabilities sum to 1. -/
theorem histogram_probabilities_sum_to_one_witness :
    (([⟨[0], [], [], [], [], none⟩, ⟨[5], [], [], [], [], none⟩,
        ⟨[10], [], [], [], [], none⟩] : List ResultDTO) ≠ [])
    ∧ ∃ hl : List (List ℚ × ℚ),
      (ResultSet.create [⟨[0], [], [], [], [], none⟩, ⟨[5], [], [], [], [], none⟩,
          ⟨[10], [], [], [], [], none⟩] 2).histogram = some hl
      ∧ (hl.map Prod.snd).sum = 1
      ∧ ∀ kv ∈ hl, ∃ c : Nat, 1 ≤ c
          ∧ kv.2 = (c : ℚ) / (([⟨[0], [], [], [], [], none⟩, ⟨[5], [], [], [], [], none⟩,
              ⟨[10], [], [], [], [], none⟩] : List ResultDTO).length : ℚ) :=
  ⟨by decide, histogram_probabilities_sum_to_one
    [⟨[0], [], [], [], [], none⟩, ⟨[5], [], [], [], [], none⟩,
      ⟨[10], [], [], [], [], none⟩] 2 (by decide)⟩

/-- C9: the histogram is absent exactly for an empty batch, and
`getEntropy` returns absent (`none`) exactly when the batch was empty. -/
theorem entropy_absent_iff_empty (results : List ResultDTO) (bin : Int) :
    ((ResultSet.create results bin).histogram = none ↔ results = [])
    ∧ ((ResultSet.create results bin).getEntropy = none ↔ results = []) := by
  cases results with
  | nil =>
    constructor
    · exact ⟨fun _ => rfl, fun _ => rfl⟩
    · exact ⟨fun _ => rfl, fun _ => rfl⟩
  | cons r0 rest =>
    rcases histogram_structure r0 rest bin with ⟨counts, hhist, _, _⟩
    constructor
    · constructor
      · intro hnone
        rw [hhist] at hnone
        cases hnone
      · intro hcon
        cases hcon
    · constructor
      · intro hnone
        unfold ResultSet.getEntropy at hnone
        rw [hhist] at hnone
        cases hnone
      · intro hcon
        cases hcon

/-! ## Claims C3 and C10: entropy -/

theorem updMin_self (v : List ℚ) : updMin v v = v := by
  unfold updMin
  rw [List.drop_length, List.append_nil]
  induction v with
  | nil => rfl
  | cons x l ih =>
    simp only [List.zipWith_cons_cons, lt_irrefl, if_false, ih]

theorem updMax_self (v : List ℚ) : updMax v v = v := by
  unfold updMax
  rw [List.drop_length, List.append_nil]
  induction v with
  | nil => rfl
  | cons x l ih =>
    simp only [List.zipWith_cons_cons, lt_irrefl, if_false, ih]

theorem foldl_updMin_replicate (n : Nat) (v : List ℚ) :
    (List.replicate n v).foldl updMin v = v := by
  induction n with
  | zero => rfl
  | succ m ih =>
    rw [List.replicate_succ, List.foldl_cons, updMin_self]
    exact ih

theorem foldl_updMax_replicate (n : Nat) (v : List ℚ) :
    (List.replicate n v).foldl updMax v = v := by
  induction n with
  | zero => rfl
  | succ m ih =>
    rw [List.replicate_succ, List.foldl_cons, updMax_self]
    exact ih

theorem histogram_fast_path (r0 : ResultDTO) (rest : List ResultDTO) (bin : Int)
    (heq : ((r0 :: rest).map stateVector).foldl updMax (stateVector r0)
      = ((r0 :: rest).map stateVector).foldl updMin (stateVector r0)) :
    (ResultSet.create (r0 :: rest) bin).histogram
      = some [(((r0 :: rest).map stateVector).foldl updMax (stateVector r0),
          ((((r0 :: rest) : List ResultDTO).length : ℚ)
            / (((r0 :: rest) : List ResultDTO).length : ℚ)))] := by
  have hcreate : (ResultSet.create (r0 :: rest) bin).histogram
      = some ((if ((r0 :: rest).map stateVector).foldl updMax (stateVector r0)
              ≠ ((r0 :: rest).map stateVector).foldl updMin (stateVector r0) then
            keyCounts (((r0 :: rest).map stateVector).map (quantiseStateVector
                (((r0 :: rest).map stateVector).foldl updMin (stateVector r0))
                (binSizesOf
                  (((r0 :: rest).map stateVector).foldl updMin (stateVector r0))
                  (((r0 :: rest).map stateVector).foldl updMax (stateVector r0))
                  bin)))
          else
            [(((r0 :: rest).map stateVector).foldl updMax (stateVector r0),
              ((r0 :: rest).map stateVector).length)]).map
          (fun kc => (kc.1, (kc.2 : ℚ) / ((((r0 :: rest).map stateVector).length : Nat) : ℚ)))) :=
    rfl
  rw [hcreate, if_neg (not_ne_iff.mpr heq), List.map_singleton, List.length_map]

/-- C3: for every non-empty batch, `getEntropy` returns a value
`H = −Σ p·log2 p` over the stored probabilities in which zero entries are
guarded away from the logarithm, and that value is non-negative (in
particular a well-defined real number, never `−∞`/`NaN`); a batch of 10
identical results returns exactly 0 for any bin count. -/
theorem getEntropy_nonneg_and_zero_on_identical :
    (∀ (results : List ResultDTO) (bin : Int), results ≠ [] →
      ∃ H : ℝ, (ResultSet.create results bin).getEntropy = some H ∧ 0 ≤ H)
    ∧ (∀ (r : ResultDTO) (bin : Int),
      (ResultSet.create (List.replicate 10 r) bin).getEntropy = some 0) := by
  constructor
  · intro results bin h
    rcases histogram_values results bin h with ⟨hl, hhist, hsum, hval⟩
    refine ⟨-(hl.map (fun kv => entropyTerm kv.2)).sum, ?_, ?_⟩
    · unfold ResultSet.getEntropy
      rw [hhist, Option.map_some']
    · rw [neg_nonneg]
      have hterms : ∀ kv ∈ hl, entropyTerm kv.2 ≤ (fun _ => (0 : ℝ)) kv := by
        intro kv hkv
        rcases hval kv hkv with ⟨c, hc1, hcn, hform⟩
        have hn : (0 : ℚ) < (results.length : ℚ) := by
          have : 0 < results.length := List.length_pos.mpr h
          exact_mod_cast this
        have hp0 : (0 : ℚ) < kv.2 := by
          rw [hform]
          apply div_pos _ hn
          exact_mod_cast hc1
        have hp1 : kv.2 ≤ 1 := by
          rw [hform]
          rw [div_le_one hn]
          exact_mod_cast hcn
        unfold entropyTerm
        rw [if_pos hp0]
        apply mul_nonpos_of_nonneg_of_nonpos
        · exact_mod_cast hp0.le
        · apply Real.logb_nonpos one_lt_two
          · exact_mod_cast hp0.le
          · exact_mod_cast hp1
      have hle := @List.sum_le_sum (List ℚ × ℚ) ℝ _ _ _ _ hl
        (fun kv => entropyTerm kv.2) (fun _ => (0 : ℝ)) hterms
      simpa using hle
  · intro r bin
    have hrep : List.replicate 10 r = r :: List.replicate 9 r := rfl
    have hmaps : ((r :: List.replicate 9 r).map stateVector)
        = List.replicate 10 (stateVector r) := by
      rw [← hrep, List.map_replicate]
    have hmin : ((r :: List.replicate 9 r).map stateVector).foldl updMin (stateVector r)
        = stateVector r := by
      rw [hmaps]
      exact foldl_updMin_replicate 10 (stateVector r)
    have hmax : ((r :: List.replicate 9 r).map stateVector).foldl updMax (stateVector r)
        = stateVector r := by
      rw [hmaps]
      exact foldl_updMax_replicate 10 (stateVector r)
    rw [hrep]
    have hhist := histogram_fast_path r (List.replicate 9 r) bin (by rw [hmin, hmax])
    unfold ResultSet.getEntropy
    rw [hhist, Option.map_some']
    have hlen : (((r :: List.replicate 9 r) : List ResultDTO).length : ℚ) = 10 := by
      simp
    rw [List.map_singleton, List.sum_singleton, hlen]
    have hone : (10 : ℚ) / 10 = 1 := by norm_num
    rw [hone]
    unfold entropyTerm
    rw [if_pos one_pos]
    push_cast
    rw [Real.logb_one, mul_zero, neg_zero]

/-- C3 witness: a concrete non-empty batch gets a non-negative entropy, and
10 copies of a concrete record give entropy exactly 0 (bin count 7). -/
theorem getEntropy_nonneg_witness :
    (([⟨[1], [], [], [], [], none⟩, ⟨[2], [], [], [], [], none⟩] : List ResultDTO) ≠ []
      ∧ ∃ H : ℝ, (ResultSet.create
          [⟨[1], [], [], [], [], none⟩, ⟨[2], [], [], [], [], none⟩] 4).getEntropy
          = some H ∧ 0 ≤ H)
    ∧ (ResultSet.create
        (List.replicate 10 (⟨[3], [2], [], [], [], none⟩ : ResultDTO)) 7).getEntropy
      = some 0 := by
  refine ⟨⟨by decide, ?_⟩, ?_⟩
  · exact getEntropy_nonneg_and_zero_on_identical.1
      [⟨[1], [], [], [], [], none⟩, ⟨[2], [], [], [], [], none⟩] 4 (by decide)
  · exact getEntropy_nonneg_and_zero_on_identical.2 ⟨[3], [2], [], [], [], none⟩ 7

theorem rat_cast_snd_sum (hl : List (List ℚ × ℚ)) :
    (hl.map (fun kv => ((kv.2 : ℚ) : ℝ))).sum = (((hl.map Prod.snd).sum : ℚ) : ℝ) := by
  induction hl with
  | nil => simp
  | cons kv rest ih => simp [ih]

/-- C10: for every non-empty batch of `n` results the entropy is at most
`log2 n`: every histogram probability is a positive integer bucket count
over `n`, hence at least `1/n`, and the probabilities sum to 1, so the
Shannon sum cannot exceed `log2 n`. -/
theorem getEntropy_le_log2_card (results : List ResultDTO) (bin : Int)
    (h : results ≠ []) :
    ∃ H : ℝ, (ResultSet.create results bin).getEntropy = some H
      ∧ H ≤ Real.logb 2 ((results.length : ℕ) : ℝ) := by
  rcases histogram_values results bin h with ⟨hl, hhist, hsum, hval⟩
  have hn0 : 0 < results.length := List.length_pos.mpr h
  have hnR : (0 : ℝ) < ((results.length : ℕ) : ℝ) := by exact_mod_cast hn0
  refine ⟨-(hl.map (fun kv => entropyTerm kv.2)).sum, ?_, ?_⟩
  · unfold ResultSet.getEntropy
    rw [hhist, Option.map_some']
  · have hterm : ∀ kv ∈ hl,
        (fun kv : List ℚ × ℚ =>
          ((kv.2 : ℚ) : ℝ) * (-(Real.logb 2 ((results.length : ℕ) : ℝ)))) kv
          ≤ (fun kv : List ℚ × ℚ => entropyTerm kv.2) kv := by
      intro kv hkv
      rcases hval kv hkv with ⟨c, hc1, hcn, hform⟩
      have hnQ : (0 : ℚ) < (results.length : ℚ) := by exact_mod_cast hn0
      have hp0 : (0 : ℚ) < kv.2 := by
        rw [hform]
        apply div_pos _ hnQ
        exact_mod_cast hc1
      have hpR0 : (0 : ℝ) < ((kv.2 : ℚ) : ℝ) := by exact_mod_cast hp0
      have hplow : (1 : ℚ) / (results.length : ℚ) ≤ kv.2 := by
        rw [hform]
        gcongr
        exact_mod_cast hc1
      have hpinv : (((kv.2 : ℚ) : ℝ))⁻¹ ≤ ((results.length : ℕ) : ℝ) := by
        rw [inv_le_comm₀ hpR0 hnR]
        have hcast : (((results.length : ℕ) : ℝ))⁻¹
            = (((1 : ℚ) / (results.length : ℚ) : ℚ) : ℝ) := by
          push_cast
          ring
        rw [hcast]
        exact_mod_cast hplow
      have hlog : -(Real.logb 2 ((results.length : ℕ) : ℝ))
          ≤ Real.logb 2 ((kv.2 : ℚ) : ℝ) := by
        have hmono : Real.logb 2 (((kv.2 : ℚ) : ℝ))⁻¹
            ≤ Real.logb 2 ((results.length : ℕ) : ℝ) :=
          Real.logb_le_logb_of_le one_lt_two (inv_pos.mpr hpR0) hpinv
        rw [Real.logb_inv] at hmono
        linarith
      show ((kv.2 : ℚ) : ℝ) * (-(Real.logb 2 ((results.length : ℕ) : ℝ)))
          ≤ entropyTerm kv.2
      unfold entropyTerm
      rw [if_pos hp0]
      exact mul_le_mul_of_nonneg_left hlog hpR0.le
    have hle := @List.sum_le_sum (List ℚ × ℚ) ℝ _ _ _ _ hl
      (fun kv : List ℚ × ℚ =>
        ((kv.2 : ℚ) : ℝ) * (-(Real.logb 2 ((results.length : ℕ) : ℝ))))
      (fun kv : List ℚ × ℚ => entropyTerm kv.2) hterm
    have hlhs : (hl.map (fun kv : List ℚ × ℚ =>
        ((kv.2 : ℚ) : ℝ) * (-(Real.logb 2 ((results.length : ℕ) : ℝ))))).sum
        = -(Real.logb 2 ((results.length : ℕ) : ℝ)) := by
      rw [List.sum_map_mul_right, rat_cast_snd_sum, hsum]
      norm_num
    rw [hlhs] at hle
    linarith

/-- C10 witness: a concrete two-record batch has entropy at most
`log2 2`. -/
theorem getEntropy_le_log2_card_witness :
    (([⟨[1], [], [], [], [], none⟩, ⟨[4], [], [], [], [], none⟩] : List ResultDTO) ≠ [])
    ∧ ∃ H : ℝ, (ResultSet.create
        [⟨[1], [], [], [], [], none⟩, ⟨[4], [], [], [], [], none⟩] 8).getEntropy = some H
      ∧ H ≤ Real.logb 2
          ((([⟨[1], [], [], [], [], none⟩, ⟨[4], [], [], [], [], none⟩]
            : List ResultDTO).length : ℕ) : ℝ) :=
  ⟨by decide, getEntropy_le_log2_card
    [⟨[1], [], [], [], [], none⟩, ⟨[4], [], [], [], [], none⟩] 8 (by decide)⟩

/-! ## Claim C7: quantization -/

theorem getElem?_zip_of_lt {α β : Type} {l1 : List α} {l2 : List β} {i : Nat}
    (h1 : i < l1.length) (h2 : i < l2.length) :
    (l1.zip l2)[i]? = some (l1[i], l2[i]) := by
  show (List.zipWith Prod.mk l1 l2)[i]? = some (l1[i], l2[i])
  rw [List.getElem?_zipWith]
  rw [List.getElem?_eq_getElem h1, List.getElem?_eq_getElem h2]

theorem getD_of_lt {α : Type} {l : List α} {i : Nat} (h : i < l.length) (d : α) :
    l.getD i d = l[i] := by
  rw [List.getD_eq_getElem?_getD, List.getElem?_eq_getElem h, Option.getD_some]

/-- C7: per dimension the bin size is `(max[i] − min[i]) / binCount` when
`binCount > 0` and `0` otherwise (no division by a zero bin count), the
quantised coordinate is `binIndex · binSize[i] + min[i]` with
`binIndex = floor((value − min[i]) / binSize[i])` when `binSize[i] ≠ 0` and
`binIndex = 0` otherwise, and with a bin count of 0 every bin size is 0, so
every value collapses to bin index 0 and the quantised vector is the `min`
vector itself. -/
theorem quantiseStateVector_spec :
    (∀ (mins maxs : List ℚ) (bc : Int) (i : Nat), i < mins.length → i < maxs.length →
      (binSizesOf mins maxs bc).getD i 0
        = if 0 < bc then (maxs.getD i 0 - mins.getD i 0) / ((bc : Int) : ℚ) else 0)
    ∧ (∀ (mins sizes v : List ℚ) (i : Nat),
        i < v.length → i < mins.length → i < sizes.length →
      (quantiseStateVector mins sizes v).getD i 0
        = (if sizes.getD i 0 ≠ 0
            then ((Int.floor ((v.getD i 0 - mins.getD i 0) / sizes.getD i 0) : Int) : ℚ)
            else 0) * sizes.getD i 0 + mins.getD i 0)
    ∧ (∀ (mins maxs v : List ℚ), mins.length = maxs.length → v.length = mins.length →
      quantiseStateVector mins (binSizesOf mins maxs 0) v = mins) := by
  have hsizes : ∀ (mins maxs : List ℚ) (bc : Int) (i : Nat),
      i < mins.length → i < maxs.length →
      (binSizesOf mins maxs bc).getD i 0
        = if 0 < bc then (maxs.getD i 0 - mins.getD i 0) / ((bc : Int) : ℚ) else 0 := by
    intro mins maxs bc i h1 h2
    unfold binSizesOf
    have hlt : i < (List.zipWith (fun mn mx =>
        if 0 < bc then (mx - mn) / ((bc : Int) : ℚ) else 0) mins maxs).length := by
      rw [List.length_zipWith]
      exact lt_min h1 h2
    rw [getD_of_lt hlt, List.getElem_zipWith, getD_of_lt h1, getD_of_lt h2]
  have hcell : ∀ (mins sizes v : List ℚ) (i : Nat),
      i < v.length → i < mins.length → i < sizes.length →
      (quantiseStateVector mins sizes v).getD i 0
        = (if sizes.getD i 0 ≠ 0
            then ((Int.floor ((v.getD i 0 - mins.getD i 0) / sizes.getD i 0) : Int) : ℚ)
            else 0) * sizes.getD i 0 + mins.getD i 0 := by
    intro mins sizes v i hv hm hs
    unfold quantiseStateVector
    have hz2 : (mins.zip sizes)[i]? = some (mins[i], sizes[i]) :=
      getElem?_zip_of_lt hm hs
    have hz2lt : i < (mins.zip sizes).length := by
      rw [List.length_zip]
      exact lt_min hm hs
    have hz1 : (v.zip (mins.zip sizes))[i]? = some (v[i], mins[i], sizes[i]) := by
      rw [getElem?_zip_of_lt hv hz2lt]
      congr 1
      rw [Prod.ext_iff]
      refine ⟨rfl, ?_⟩
      show (mins.zip sizes)[i] = (mins[i], sizes[i])
      have := hz2
      rwa [List.getElem?_eq_getElem hz2lt, Option.some.injEq] at this
    have hlt : i < ((v.zip (mins.zip sizes)).map (fun p =>
        (if p.2.2 ≠ 0 then ((Int.floor ((p.1 - p.2.1) / p.2.2) : Int) : ℚ) else 0)
          * p.2.2 + p.2.1)).length := by
      rw [List.length_map, List.length_zip, List.length_zip]
      exact lt_min hv (lt_min hm hs)
    rw [List.getD_eq_getElem?_getD, List.getElem?_map, hz1]
    rw [getD_of_lt hv 0, getD_of_lt hm 0, getD_of_lt hs 0]
    rfl
  refine ⟨hsizes, hcell, ?_⟩
  intro mins maxs v hmm hvm
  have hslen : (binSizesOf mins maxs 0).length = mins.length := by
    unfold binSizesOf
    rw [List.length_zipWith, ← hmm, min_self]
  have hqlen : (quantiseStateVector mins (binSizesOf mins maxs 0) v).length
      = mins.length := by
    unfold quantiseStateVector
    rw [List.length_map, List.length_zip, List.length_zip, hslen, min_self, hvm,
      min_self]
  apply List.ext_getElem?
  intro i
  by_cases hi : i < mins.length
  · have hq : i < (quantiseStateVector mins (binSizesOf mins maxs 0) v).length := by
      rw [hqlen]
      exact hi
    rw [List.getElem?_eq_getElem hq, List.getElem?_eq_getElem hi]
    have hveq : (quantiseStateVector mins (binSizesOf mins maxs 0) v)[i]
        = (quantiseStateVector mins (binSizesOf mins maxs 0) v).getD i 0 :=
      (getD_of_lt hq 0).symm
    rw [hveq, hcell mins (binSizesOf mins maxs 0) v i (by omega) hi (by omega)]
    have hzero : (binSizesOf mins maxs 0).getD i 0 = 0 := by
      rw [hsizes mins maxs 0 i hi (by omega)]
      norm_num
    rw [hzero]
    rw [getD_of_lt hi 0]
    norm_num
  · rw [List.getElem?_eq_none_iff.mpr (by rw [hqlen]; omega),
      List.getElem?_eq_none_iff.mpr (by omega)]

/-- C7 witness: concrete one-dimensional instances of the three parts of the
quantization contract (bin size `(10−0)/2`, a floor-based cell, and the
bin-count-0 collapse). -/
theorem quantiseStateVector_spec_witness :
    ((0 : Nat) < ([(0 : ℚ)] : List ℚ).length
      ∧ (0 : Nat) < ([(10 : ℚ)] : List ℚ).length
      ∧ (binSizesOf [(0 : ℚ)] [(10 : ℚ)] 2).getD 0 0
          = if 0 < (2 : Int)
            then (([(10 : ℚ)] : List ℚ).getD 0 0 - ([(0 : ℚ)] : List ℚ).getD 0 0)
              / (((2 : Int) : Int) : ℚ)
            else 0)
    ∧ ((0 : Nat) < ([(7 : ℚ)] : List ℚ).length
      ∧ (quantiseStateVector [(0 : ℚ)] [(5 : ℚ)] [(7 : ℚ)]).getD 0 0
          = (if ([(5 : ℚ)] : List ℚ).getD 0 0 ≠ 0
              then ((Int.floor ((([(7 : ℚ)] : List ℚ).getD 0 0
                  - ([(0 : ℚ)] : List ℚ).getD 0 0)
                  / ([(5 : ℚ)] : List ℚ).getD 0 0) : Int) : ℚ)
              else 0) * ([(5 : ℚ)] : List ℚ).getD 0 0
            + ([(0 : ℚ)] : List ℚ).getD 0 0)
    ∧ (([(0 : ℚ)] : List ℚ).length = ([(10 : ℚ)] : List ℚ).length
      ∧ quantiseStateVector [(0 : ℚ)] (binSizesOf [(0 : ℚ)] [(10 : ℚ)] 0) [(7 : ℚ)]
          = [(0 : ℚ)]) := by
  refine ⟨⟨by decide, by decide, ?_⟩, ⟨by decide, ?_⟩, ⟨by decide, ?_⟩⟩
  · exact quantiseStateVector_spec.1 [(0 : ℚ)] [(10 : ℚ)] 2 0 (by decide) (by decide)
  · exact quantiseStateVector_spec.2.1 [(0 : ℚ)] [(5 : ℚ)] [(7 : ℚ)] 0
      (by decide) (by decide) (by decide)
  · exact quantiseStateVector_spec.2.2 [(0 : ℚ)] [(10 : ℚ)] [(7 : ℚ)]
      (by decide) (by decide)

/-! ## Claim C8: performance statistics -/

/-- C8: the mean is absent exactly for an empty batch; for a non-empty batch
it is the mean over all results with missing `performance` replaced by `0`;
the sample standard deviation (denominator `n − 1`) is present exactly when
`n > 2`, and then equals the square root of the sample variance around that
mean. -/
theorem getPerformance_spec (results : List ResultDTO) (bin : Int) :
    ((ResultSet.create results bin).getPerformance.1 = none ↔ results = [])
    ∧ (results ≠ [] →
        (ResultSet.create results bin).getPerformance.1
          = some ((results.map (fun r => r.performance.getD 0)).sum
              / (results.length : ℚ)))
    ∧ ((ResultSet.create results bin).getPerformance.2.isSome ↔ 2 < results.length)
    ∧ (2 < results.length →
        (ResultSet.create results bin).getPerformance.2
          = some (Real.sqrt ((((results.map (fun r => r.performance.getD 0)).map
              (fun v => (v - (results.map (fun r => r.performance.getD 0)).sum
                  / (results.length : ℚ)) ^ 2)).sum
              / ((results.length : ℚ) - 1) : ℚ)))) := by
  unfold ResultSet.getPerformance
  rw [resultSet_create_results]
  simp only [List.length_map]
  cases results with
  | nil =>
    refine ⟨⟨fun _ => rfl, fun _ => rfl⟩, fun h => absurd rfl h, ?_, ?_⟩
    · constructor
      · intro h
        cases h
      · intro h
        cases h
    · intro h
      cases h
  | cons r0 rest =>
    have hlen : 0 < ((r0 :: rest) : List ResultDTO).length := Nat.succ_pos rest.length
    rw [if_pos hlen]
    refine ⟨⟨fun hcon => (by cases hcon), fun hcon => (by cases hcon)⟩, ?_, ?_, ?_⟩
    · intro _
      rfl
    · by_cases h2 : 2 < ((r0 :: rest) : List ResultDTO).length
      · rw [if_pos h2]
        simp only [Option.isSome_some, true_iff]
        exact h2
      · rw [if_neg h2]
        constructor
        · intro hcon
          cases hcon
        · intro hcon
          exact absurd hcon h2
    · intro h2
      rw [if_pos h2]

/-- C8 witness: three results with performances `100`, `200`, `300` have
mean `200` and standard deviation `sqrt 10000 = 100 > 0`. -/
theorem getPerformance_spec_witness :
    (([⟨[], [], [], [], [], some 100⟩, ⟨[], [], [], [], [], some 200⟩,
        ⟨[], [], [], [], [], some 300⟩] : List ResultDTO) ≠ []
      ∧ (ResultSet.create [⟨[], [], [], [], [], some 100⟩, ⟨[], [], [], [], [], some 200⟩,
          ⟨[], [], [], [], [], some 300⟩] 100).getPerformance.1 = some 200)
    ∧ (2 < ([⟨[], [], [], [], [], some 100⟩, ⟨[], [], [], [], [], some 200⟩,
        ⟨[], [], [], [], [], some 300⟩] : List ResultDTO).length
      ∧ (ResultSet.create [⟨[], [], [], [], [], some 100⟩, ⟨[], [], [], [], [], some 200⟩,
          ⟨[], [], [], [], [], some 300⟩] 100).getPerformance.2
        = some (Real.sqrt ((10000 : ℚ) : ℝ))
      ∧ (0 : ℝ) < Real.sqrt ((10000 : ℚ) : ℝ)) := by
  have hmean := (getPerformance_spec [⟨[], [], [], [], [], some 100⟩,
    ⟨[], [], [], [], [], some 200⟩, ⟨[], [], [], [], [], some 300⟩] 100).2.1 (by decide)
  have hsd := (getPerformance_spec [⟨[], [], [], [], [], some 100⟩,
    ⟨[], [], [], [], [], some 200⟩, ⟨[], [], [], [], [], some 300⟩] 100).2.2.2 (by decide)
  refine ⟨⟨by decide, ?_⟩, by decide, ?_, ?_⟩
  · rw [hmean]
    norm_num [List.map_cons, List.map_nil]
  · rw [hsd]
    norm_num [List.map_cons, List.map_nil]
  · rw [Real.sqrt_pos]
    norm_num
